import Mathlib

/-!
Shallow embedding of the AntiChess front-end (`src/uci.cpp`): the move codec
(`UCI.square`, `UCI.move`, `UCI.to_antichess_move`), the move selector
(`start_thinking`), the per-move driver (`move_and_counter`) and the command
loop (`UCI.loop`).  The position/board representation, legal- and capture-move
generation and move application live in external collaborator code outside the
studied source; per the spec they are consumed as an opaque interface and are
modelled here as opaque data supplied to the embedded functions.
-/

/-- Modelled from the spec: the promotion-piece alphabet of the external move
representation (`types.h` is not part of the studied source); the spec fixes
the ordering pawn, knight, bishop, rook, queen, king (indices 0..5). -/
inductive PieceType where
  | pawn
  | knight
  | bishop
  | rook
  | queen
  | king
deriving DecidableEq

/-- Index of a piece type in the fixed ordering pawn=0 .. king=5. -/
def ptIndex : PieceType → Nat
  | PieceType.pawn => 0
  | PieceType.knight => 1
  | PieceType.bishop => 2
  | PieceType.rook => 3
  | PieceType.queen => 4
  | PieceType.king => 5

/-- Modelled from the spec: the move-kind tag of the external move
representation (normal, castling, promotion, en-passant-like special). -/
inductive MoveKind where
  | normal
  | promotion
  | enPassant
  | castling
deriving DecidableEq

/-- Modelled from the spec: a board square is a (file 0-7, rank 0-7) pair. -/
structure Square where
  file : Fin 8
  rank : Fin 8
deriving DecidableEq

/-- Square index in the external representation (rank-major); the encoder
comparison `to > from` compares these indices. -/
def sqIdx (s : Square) : Nat := 8 * s.rank.val + s.file.val

/-- Modelled from the spec: a move is the "no move" sentinel `MOVE_NONE`, the
"null move" sentinel `MOVE_NULL`, or an (origin, destination, kind,
promotion-piece) tuple. -/
inductive Move where
  | none
  | null
  | mk (fromSq : Square) (toSq : Square) (kind : MoveKind) (promo : PieceType)
deriving DecidableEq

/-- Modelled from the spec: the external position collaborator, reduced to the
interface the front-end consumes on a fixed position: the legal-move list
(`MoveList<LEGAL>`), the capture-move list (`MoveList<CAPTURES>`), and the
castling-mode flag (`is_chess960()`). -/
structure Position where
  legalMoves : List Move
  captureMoves : List Move
  chess960 : Bool
deriving DecidableEq

/-- File letter of a square: the character `'a' + file`. -/
def fileChar (f : Fin 8) : Char := Char.ofNat (Char.toNat 'a' + f.val)

/-- Rank digit of a square: the character `'1' + rank`. -/
def rankChar (r : Fin 8) : Char := Char.ofNat (Char.toNat '1' + r.val)

/-- Embeds `UCI::square`: two characters, file letter then rank digit. -/
def UCI.square (s : Square) : String :=
  ⟨[fileChar s.file, rankChar s.rank]⟩

/-- The character `" pnbrqk"[promotion_type(m)]` appended for a promotion move
(the letter of the promotion piece; the external piece-type enum makes the
string index land on exactly these letters). -/
def promoChar : PieceType → Char
  | PieceType.pawn => 'p'
  | PieceType.knight => 'n'
  | PieceType.bishop => 'b'
  | PieceType.rook => 'r'
  | PieceType.queen => 'q'
  | PieceType.king => 'k'

/-- Embeds `UCI::move`: `MOVE_NONE` renders as `(none)`, `MOVE_NULL` as `0000`;
a castling move outside Chess960 mode has its destination rewritten to file G
(when the destination square is greater than the origin) or file C on the rank
of the origin; then origin and destination are rendered, and a promotion move
appends the promotion letter. -/
def UCI.move (m : Move) (chess960 : Bool) : String :=
  match m with
  | Move.none => "(none)"
  | Move.null => "0000"
  | Move.mk fromSq toSq kind promo =>
    let toSq := if kind = MoveKind.castling ∧ chess960 = false
                then { file := if sqIdx toSq > sqIdx fromSq then (6 : Fin 8) else (2 : Fin 8),
                       rank := fromSq.rank }
                else toSq
    let mv := UCI.square fromSq ++ UCI.square toSq
    if kind = MoveKind.promotion then mv.push (promoChar promo) else mv

/-- The in-place mutation `str[4] = char(tolower(str[4]))` performed by
`UCI::to_antichess_move` on a 5-character reference argument. -/
def lowerFifth (str : String) : String :=
  if str.length = 5 then ⟨str.data.set 4 (str.data.getD 4 ' ').toLower⟩ else str

/-- Embeds `UCI::to_antichess_move`: lowercase the promotion letter of a
5-character text (mutating the string of the caller, returned here as the
first component), then return the first legal move whose encoding equals the
text, else the first capture move whose encoding equals the text, else
`MOVE_NONE`. -/
def UCI.to_antichess_move (pos : Position) (str : String) : String × Move :=
  let str := lowerFifth str
  match pos.legalMoves.find? (fun m => decide (str = UCI.move m pos.chess960)) with
  | some m => (str, m)
  | Option.none =>
    match pos.captureMoves.find? (fun m => decide (str = UCI.move m pos.chess960)) with
    | some m => (str, m)
    | Option.none => (str, Move.none)

/-- The candidate root-move list built by `start_thinking`: the capture moves
that the legal-move list also contains. -/
def rootCandidates (pos : Position) : List Move :=
  pos.captureMoves.filter (fun m => decide (m ∈ pos.legalMoves))

/-- Embeds `start_thinking`.  The C++ computes
`int moveIndex = rand() % rootMoves.size();` before testing
`rootMoves.empty()`; when the final root-move list is empty this modulus has a
zero divisor (undefined behaviour, a crash on common targets), modelled as
`Except.error ()`.  The pseudo-random draw `rand()` is passed in as `rnd`.
The guarded accesses `captureMoves.begin()->move` and `rootMoves[moveIndex]`
are rendered with `headD`/`getD`; their guards keep them in bounds, so the
defaults are never consulted. -/
def start_thinking (rnd : Nat) (pos : Position) : Except Unit Move :=
  let rootMoves := rootCandidates pos
  if rootMoves = [] ∧ pos.captureMoves ≠ [] then
    Except.ok (pos.captureMoves.headD Move.none)
  else
    let rootMoves := if rootMoves = [] then pos.legalMoves else rootMoves
    if rootMoves = [] then
      Except.error ()
    else
      Except.ok (rootMoves.getD (rnd % rootMoves.length) Move.none)

/-- Modelled from the spec: the remaining external collaborator operations the
loop drives — in-place move application (`Position::do_move`), serialization
(`Position::fen`), deserialization (`Position::set`, whose castling-mode flag
comes from the persistent `Options` store). -/
structure World where
  optChess960 : Bool
  doMove : Position → Move → Position
  fen : Position → String
  setFen : String → Bool → Position

/-- Embeds `move_and_counter`: replace the state history by a fresh
single-element deque, rebase the position from the serialized form of the
position itself, apply the opponent move `m` (appending one snapshot), invoke
the selector, print the reply of the selector, and apply that reply (appending
one snapshot).  The state history is modelled by its length; the returned list
is the lines printed.  A selector crash (terminal position) propagates as
`Except.error` with nothing printed. -/
def move_and_counter (W : World) (rnd : Nat) (pos : Position) (m : Move)
    (states0 : Nat) : List String × Except Unit (Position × Nat) :=
  let _ := states0
  let states := 1
  let pos := W.setFen (W.fen pos) W.optChess960
  let states := states + 1
  let pos := W.doMove pos m
  match start_thinking rnd pos with
  | Except.error e => ([], Except.error e)
  | Except.ok best =>
    let out := [UCI.move best false]
    let states := states + 1
    let pos := W.doMove pos best
    (out, Except.ok (pos, states))

/-- The first whitespace-delimited token of a line, as extracted by
`is >> skipws >> token` (empty when the line is blank or all whitespace). -/
def firstToken (s : String) : String :=
  ⟨(s.data.dropWhile Char.isWhitespace).takeWhile (fun c => ¬ c.isWhitespace)⟩

/-- An apostrophe (the quote character printed inside the unknown-command
diagnostic). -/
def squote : Char := Char.ofNat 39

/-- The literal `Unknown command: ` followed by an opening single quote,
exactly as printed by the loop (the source prints no closing quote). -/
def unknownMsg : String := "Unknown command: ".push squote

/-- One iteration of the body of `UCI::loop` on the line `cmd`: dispatch on
the first token; returns the lines printed and, unless the selector crashed,
the new position, new history length, remaining random draws, and the final
value of the (possibly mutated) `token` variable tested by the loop
condition. -/
def loopStep (W : World) (rnds : List Nat) (pos : Position) (states : Nat)
    (cmd : String) : List String × Except Unit (Position × Nat × List Nat × String) :=
  let token := firstToken cmd
  if token = "white" ∨ token = "black" then
    (["skip"], Except.ok (pos, states, rnds, token))
  else
    match UCI.to_antichess_move pos token with
    | (token, m) =>
      if m ≠ Move.none then
        match move_and_counter W (rnds.headD 0) pos m states with
        | (out, Except.error e) => (out, Except.error e)
        | (out, Except.ok (pos, states)) => (out, Except.ok (pos, states, rnds.tail, token))
      else if ¬ token.isEmpty ∧ token.data.headD ' ' ≠ '#' then
        ([unknownMsg ++ cmd], Except.ok (pos, states, rnds, token))
      else
        ([], Except.ok (pos, states, rnds, token))

/-- Embeds the `do { ... } while (token != "quit")` loop of `UCI::loop`, run
on a finite list of input lines: an exhausted input channel substitutes the
literal command `quit` (which the dispatch then processes like any other
line); after each line the loop exits when the final token equals `quit`.
Returns all printed lines and whether the run completed (or crashed). -/
def UCI.loop (W : World) : List Nat → Position → Nat → List String →
    List String × Except Unit Unit
  | rnds, pos, states, [] =>
    match loopStep W rnds pos states "quit" with
    | (out, Except.error e) => (out, Except.error e)
    | (out, Except.ok _) => (out, Except.ok ())
  | rnds, pos, states, cmd :: rest =>
    match loopStep W rnds pos states cmd with
    | (out, Except.error e) => (out, Except.error e)
    | (out, Except.ok (pos, states, rnds, token)) =>
      if token = "quit" then (out, Except.ok ())
      else
        match UCI.loop W rnds pos states rest with
        | (out2, r2) => (out ++ out2, r2)

/-! Concrete instances used by witnesses and counterexamples. -/

/-- A pawn double step, encoded `e2e4`. -/
def mvE2E4 : Move := Move.mk ⟨4, 1⟩ ⟨4, 3⟩ MoveKind.normal PieceType.pawn

/-- A queen promotion, encoded `a7a8q`. -/
def mvA7A8Q : Move := Move.mk ⟨0, 6⟩ ⟨0, 7⟩ MoveKind.promotion PieceType.queen

/-- A capture-shaped move distinct from the legal moves of `posFallback`. -/
def mvCapB1 : Move := Move.mk ⟨1, 0⟩ ⟨2, 1⟩ MoveKind.enPassant PieceType.pawn

/-- A terminal position: no legal moves, no captures. -/
def posEmpty : Position := ⟨[], [], false⟩

/-- A position with one legal move and no captures. -/
def posMain : Position := ⟨[mvE2E4], [], false⟩

/-- A position with two legal moves and no captures. -/
def posTwo : Position := ⟨[mvE2E4, mvA7A8Q], [], false⟩

/-- A position whose raw capture list is disjoint from its legal list. -/
def posFallback : Position := ⟨[mvE2E4], [mvCapB1], false⟩

/-- A world whose move application leaves positions unchanged and whose FEN
rebase yields `posMain`. -/
def Wid : World := ⟨false, fun p _ => p, fun _ => "", fun _ _ => posMain⟩

/-- A world whose move application always reaches the terminal position
`posEmpty` and whose FEN rebase yields `posMain`. -/
def Wterm : World := ⟨false, fun _ _ => posEmpty, fun _ => "", fun _ _ => posMain⟩

theorem char_toNat_ofNat_valid (n : Nat) (h : n.isValidChar) : (Char.ofNat n).toNat = n := by
  unfold Char.ofNat
  rw [dif_pos h]
  rfl

theorem char_toLower_idem (c : Char) : c.toLower.toLower = c.toLower := by
  unfold Char.toLower
  by_cases h : c.toNat ≥ 65 ∧ c.toNat ≤ 90
  · rw [if_pos h]
    have hv : (c.toNat + 32).isValidChar := by
      left
      have := h.2
      omega
    have ht : (Char.ofNat (c.toNat + 32)).toNat = c.toNat + 32 := char_toNat_ofNat_valid _ hv
    rw [ht]
    rw [if_neg]
    omega
  · rw [if_neg h, if_neg h]

theorem toLower_promoChar (p : PieceType) : (promoChar p).toLower = promoChar p := by
  cases p <;> decide

theorem length_lowerFifth (s : String) : (lowerFifth s).length = s.length := by
  unfold lowerFifth
  split
  · show (s.data.set 4 (s.data.getD 4 ' ').toLower).length = s.length
    rw [List.length_set]
    rfl
  · rfl

theorem move_mk_shape (f t : Square) (k : MoveKind) (pr : PieceType) (cb : Bool) :
    ∃ s : Square,
      UCI.move (Move.mk f t k pr) cb =
        if k = MoveKind.promotion
        then ⟨[fileChar f.file, rankChar f.rank, fileChar s.file, rankChar s.rank, promoChar pr]⟩
        else ⟨[fileChar f.file, rankChar f.rank, fileChar s.file, rankChar s.rank]⟩ := by
  refine ⟨if k = MoveKind.castling ∧ cb = false
          then { file := if sqIdx t > sqIdx f then (6 : Fin 8) else (2 : Fin 8), rank := f.rank }
          else t, ?_⟩
  simp only [UCI.move]
  split <;> rfl

theorem lowerFifth_move (m : Move) (cb : Bool) : lowerFifth (UCI.move m cb) = UCI.move m cb := by
  cases m with
  | none => rfl
  | null => rfl
  | mk f t k pr =>
    obtain ⟨s, hs⟩ := move_mk_shape f t k pr cb
    rw [hs]
    by_cases hk : k = MoveKind.promotion
    · rw [if_pos hk]
      show String.mk [fileChar f.file, rankChar f.rank, fileChar s.file, rankChar s.rank,
             (promoChar pr).toLower] =
           String.mk [fileChar f.file, rankChar f.rank, fileChar s.file, rankChar s.rank,
             promoChar pr]
      rw [toLower_promoChar]
    · rw [if_neg hk]
      rfl

theorem fileChar_ne_q : ∀ v : Fin 8, fileChar v ≠ 'q' := by decide

theorem move_ne_quit (m : Move) (cb : Bool) : UCI.move m cb ≠ "quit" := by
  cases m with
  | none => exact (by decide : ("(none)" : String) ≠ "quit")
  | null => exact (by decide : ("0000" : String) ≠ "quit")
  | mk f t k pr =>
    obtain ⟨s, hs⟩ := move_mk_shape f t k pr cb
    rw [hs]
    by_cases hk : k = MoveKind.promotion
    · rw [if_pos hk]
      intro hcon
      have hlen := congrArg String.length hcon
      rw [show (String.mk [fileChar f.file, rankChar f.rank, fileChar s.file, rankChar s.rank,
            promoChar pr]).length = 5 from rfl] at hlen
      exact absurd hlen (by decide)
    · rw [if_neg hk]
      intro hcon
      have := congrArg (fun x : String => x.data.headD ' ') hcon
      exact fileChar_ne_q f.file this

theorem find_first_of_mem {α} (p : α → Bool) : ∀ (l : List α) (m : α), m ∈ l → p m = true →
    (∀ x ∈ l, p x = true → x = m) → l.find? p = some m
  | [], m, hm, _, _ => absurd hm (List.not_mem_nil m)
  | a :: l, m, hm, hp, hu => by
    by_cases ha : p a = true
    · rw [List.find?_cons_of_pos l ha]
      exact congrArg some (hu a (List.mem_cons_self a l) ha)
    · rw [List.find?_cons_of_neg l ha]
      have hm' : m ∈ l := by
        rcases List.mem_cons.mp hm with h | h
        · exact absurd (h ▸ hp) ha
        · exact h
      exact find_first_of_mem p l m hm' hp (fun x hx hpx => hu x (List.mem_cons_of_mem a hx) hpx)

theorem to_antichess_move_fst (pos : Position) (s : String) :
    (UCI.to_antichess_move pos s).1 = lowerFifth s := by
  cases h1 : pos.legalMoves.find? (fun m => decide (lowerFifth s = UCI.move m pos.chess960)) with
  | some m => simp [UCI.to_antichess_move, h1]
  | none =>
    cases h2 : pos.captureMoves.find? (fun m => decide (lowerFifth s = UCI.move m pos.chess960)) with
    | some m => simp [UCI.to_antichess_move, h1, h2]
    | none => simp [UCI.to_antichess_move, h1, h2]

theorem to_antichess_move_quit (pos : Position) :
    UCI.to_antichess_move pos "quit" = ("quit", Move.none) := by
  have hq : lowerFifth "quit" = "quit" := rfl
  have hnone : ∀ l : List Move,
      l.find? (fun m => decide (("quit" : String) = UCI.move m pos.chess960)) = Option.none := by
    intro l
    refine List.find?_eq_none.mpr (fun x _ => ?_)
    simp only [decide_eq_true_eq]
    exact Ne.symm (move_ne_quit x pos.chess960)
  simp [UCI.to_antichess_move, hq, hnone]

theorem exists_five_chars (s : String) (h : s.length = 5) :
    ∃ a b c d e, s.data = [a, b, c, d, e] := by
  rcases s with ⟨l⟩
  have hl : l.length = 5 := h
  rcases l with _ | ⟨a, _ | ⟨b, _ | ⟨c, _ | ⟨d, _ | ⟨e, rest⟩⟩⟩⟩⟩ <;>
    simp_all

theorem lowerFifth_idem (s : String) : lowerFifth (lowerFifth s) = lowerFifth s := by
  by_cases h : s.length = 5
  · obtain ⟨a, b, c, d, e, hd⟩ := exists_five_chars s h
    have hs : s = ⟨[a, b, c, d, e]⟩ := String.ext hd
    subst hs
    show lowerFifth ⟨[a, b, c, d, e.toLower]⟩ = ⟨[a, b, c, d, e.toLower]⟩
    show (⟨[a, b, c, d, e.toLower.toLower]⟩ : String) = ⟨[a, b, c, d, e.toLower]⟩
    rw [char_toLower_idem]
  · have hs : lowerFifth s = s := by
      unfold lowerFifth
      rw [if_neg h]
    rw [hs, hs]

theorem lowerFifth_data_headD (s : String) (d : Char) :
    (lowerFifth s).data.headD d = s.data.headD d := by
  by_cases h : s.length = 5
  · obtain ⟨a, b, c, d2, e, hd⟩ := exists_five_chars s h
    have hs : s = ⟨[a, b, c, d2, e]⟩ := String.ext hd
    subst hs
    rfl
  · rw [show lowerFifth s = s from by unfold lowerFifth; rw [if_neg h]]

theorem lowerFifth_not_isEmpty (s : String) (h : s ≠ "") : ¬ (lowerFifth s).isEmpty = true := by
  intro he
  have h0 : lowerFifth s = "" := (String.isEmpty_iff _).mp he
  have hlen := congrArg String.length h0
  rw [length_lowerFifth] at hlen
  apply h
  rcases s with ⟨l⟩
  have hl0 : l.length = 0 := hlen
  exact String.ext (List.length_eq_zero.mp hl0)

theorem lowerFifth_ne_quit (s : String) (h : s ≠ "quit") : lowerFifth s ≠ "quit" := by
  intro he
  by_cases h5 : s.length = 5
  · have hlen := congrArg String.length he
    rw [length_lowerFifth, h5] at hlen
    exact absurd hlen (by decide)
  · have hid : lowerFifth s = s := by
      unfold lowerFifth
      rw [if_neg h5]
    exact h (hid ▸ he)

theorem loopStep_quit (W : World) (rnds : List Nat) (pos : Position) (states : Nat) :
    loopStep W rnds pos states "quit" =
      ([unknownMsg ++ "quit"], Except.ok (pos, states, rnds, "quit")) := by
  have hft : firstToken "quit" = "quit" := rfl
  simp only [loopStep, hft, to_antichess_move_quit]
  rw [if_neg (by decide : ¬(("quit" : String) = "white" ∨ ("quit" : String) = "black"))]
  rw [if_neg (by simp : ¬ Move.none ≠ Move.none)]
  rw [if_pos (by decide : ¬ ("quit" : String).isEmpty ∧ ("quit" : String).data.headD ' ' ≠ '#')]

/-- Claim C1 (code_bug evidence): on a terminal position (no legal moves, no
capture moves) `start_thinking` is not total: it evaluates the modulus
`rand() % rootMoves.size()` with a zero divisor (undefined behaviour, modelled
as an error) instead of returning `MOVE_NONE`. -/
theorem start_thinking_terminal_mod_zero :
    start_thinking 0 posEmpty = Except.error () := rfl

/-- Claim C3 (corrected): feeding `quit` terminates the loop, but only after
printing one more output line, the unknown-command diagnostic echoing `quit` —
the quit token has no dispatch case of its own, falls through to the
unknown-command branch, and only then fails the loop condition. -/
theorem quit_terminates_after_unknown_line (W : World) (rnds : List Nat) (pos : Position)
    (states : Nat) (rest : List String) :
    UCI.loop W rnds pos states ("quit" :: rest) = ([unknownMsg ++ "quit"], Except.ok ()) := by
  simp [UCI.loop, loopStep_quit]

/-- Claim C3 counterexample: at the concrete session state (`Wid`, `posMain`),
feeding the line `quit` does NOT exit silently — the claimed empty output list
is wrong, the loop prints a line in response to the quit token. -/
theorem quit_not_silent_cex :
    (UCI.loop Wid [] posMain 1 ["quit"]).1 ≠ [] := by decide

/-- Claim C7 (code_bug evidence): an accepted opponent move (`e2e4` decodes to
a legal move of `posMain`) whose application reaches a terminal position makes
the synchronous reply crash in the selector (zero-divisor modulus) with no
reply line printed, instead of printing exactly one reply line. -/
theorem accepted_move_reply_crash :
    UCI.loop Wterm [0] posMain 1 ["e2e4"] = ([], Except.error ()) := rfl

/-- Claim C2 (amended): a non-empty first token that is not `white`/`black`,
does not start with `#`, does not decode to any legal or capture move, and is
not `quit`, makes the loop print exactly `unknownMsg` (the literal
`Unknown command: ` plus an opening single quote and NO closing quote)
followed by the original full line, and continue with the next line. -/
theorem unknown_command_line_format (W : World) (rnds : List Nat) (pos : Position)
    (states : Nat) (cmd : String) (rest : List String)
    (hw : firstToken cmd ≠ "white") (hb : firstToken cmd ≠ "black")
    (hne : firstToken cmd ≠ "")
    (hhash : (firstToken cmd).data.headD ' ' ≠ '#')
    (hdec : (UCI.to_antichess_move pos (firstToken cmd)).2 = Move.none)
    (hq : firstToken cmd ≠ "quit") :
    UCI.loop W rnds pos states (cmd :: rest) =
      ((unknownMsg ++ cmd) :: (UCI.loop W rnds pos states rest).1,
       (UCI.loop W rnds pos states rest).2) := by
  have hfst := to_antichess_move_fst pos (firstToken cmd)
  have hpair : UCI.to_antichess_move pos (firstToken cmd) =
      (lowerFifth (firstToken cmd), Move.none) := Prod.ext_iff.mpr ⟨hfst, hdec⟩
  have hne2 : ¬ (lowerFifth (firstToken cmd)).isEmpty = true := lowerFifth_not_isEmpty _ hne
  have hh2 : (lowerFifth (firstToken cmd)).data.headD ' ' ≠ '#' := by
    rw [lowerFifth_data_headD]
    exact hhash
  have hstep : loopStep W rnds pos states cmd =
      ([unknownMsg ++ cmd], Except.ok (pos, states, rnds, lowerFifth (firstToken cmd))) := by
    simp only [loopStep, hpair]
    rw [if_neg (not_or.mpr ⟨hw, hb⟩)]
    rw [if_neg (by simp : ¬ Move.none ≠ Move.none)]
    rw [if_pos ⟨hne2, hh2⟩]
  rcases hrest : UCI.loop W rnds pos states rest with ⟨o2, r2⟩
  simp only [UCI.loop, hstep, hrest]
  rw [if_neg (lowerFifth_ne_quit _ hq)]
  simp

/-- Claim C2 counterexample: for the input line `foobar` (which is not a
legal/capture move of `posEmpty`) the loop body prints the diagnostic WITHOUT
the closing single quote the claim requires: the printed line differs from the
claimed form, which appends a closing quote after the echoed line. -/
theorem unknown_command_quote_cex :
    (loopStep Wid [] posEmpty 1 "foobar").1 = [unknownMsg ++ "foobar"] ∧
    unknownMsg ++ "foobar" ≠ (unknownMsg ++ "foobar").push squote := by decide

theorem unknown_command_line_format_wit :
    firstToken "foobar" ≠ "" ∧
    (UCI.to_antichess_move posEmpty (firstToken "foobar")).2 = Move.none ∧
    UCI.loop Wid [] posEmpty 1 ["foobar", "quit"] =
      ((unknownMsg ++ "foobar") :: (UCI.loop Wid [] posEmpty 1 ["quit"]).1,
       (UCI.loop Wid [] posEmpty 1 ["quit"]).2) :=
  ⟨by decide, by decide,
   unknown_command_line_format Wid [] posEmpty 1 "foobar" ["quit"] (by decide) (by decide)
     (by decide) (by decide) (by decide) (by decide)⟩

/-- Claim C4: decoding is a left inverse of encoding on the legal moves of a
position, taking the castling-mode flag from the position itself; the spec
premise that the encoder is injective over the legal moves of the position is
an explicit hypothesis (move generation is external). -/
theorem encode_decode_round_trip (pos : Position) (m : Move)
    (hm : m ∈ pos.legalMoves)
    (hinj : ∀ m1 ∈ pos.legalMoves, ∀ m2 ∈ pos.legalMoves,
      UCI.move m1 pos.chess960 = UCI.move m2 pos.chess960 → m1 = m2) :
    (UCI.to_antichess_move pos (UCI.move m pos.chess960)).2 = m := by
  have hfind : pos.legalMoves.find?
      (fun x => decide (UCI.move m pos.chess960 = UCI.move x pos.chess960)) = some m := by
    refine find_first_of_mem _ pos.legalMoves m hm (by simp) ?_
    intro x hx hpx
    rw [decide_eq_true_eq] at hpx
    exact hinj x hx m hm hpx.symm
  simp only [UCI.to_antichess_move, lowerFifth_move, hfind]

theorem encode_decode_round_trip_wit :
    mvA7A8Q ∈ posTwo.legalMoves ∧
    (UCI.to_antichess_move posTwo (UCI.move mvA7A8Q posTwo.chess960)).2 = mvA7A8Q :=
  ⟨by decide, encode_decode_round_trip posTwo mvA7A8Q (by decide) (by decide)⟩

/-- Claim C5: case analysis of the encoder — the two sentinels, the
non-Chess960 castling rewrite to file g or file c on the rank of the origin,
the promotion letter drawn from the ordering `pnbrqk` at the index of the
promotion piece, and the plain four-character rendering of every other move
with file letter `'a' + file` and rank digit `'1' + rank`. -/
theorem encode_cases :
    (∀ cb : Bool, UCI.move Move.none cb = "(none)") ∧
    (∀ cb : Bool, UCI.move Move.null cb = "0000") ∧
    (∀ (f t : Square) (pr : PieceType),
      UCI.move (Move.mk f t MoveKind.castling pr) false =
        ⟨[fileChar f.file, rankChar f.rank,
          if sqIdx t > sqIdx f then 'g' else 'c', rankChar f.rank]⟩) ∧
    (∀ (f t : Square) (pr : PieceType) (cb : Bool),
      UCI.move (Move.mk f t MoveKind.promotion pr) cb =
        ⟨[fileChar f.file, rankChar f.rank, fileChar t.file, rankChar t.rank,
          "pnbrqk".data.getD (ptIndex pr) ' ']⟩) ∧
    (∀ (f t : Square) (pr : PieceType) (cb : Bool),
      UCI.move (Move.mk f t MoveKind.normal pr) cb =
        ⟨[fileChar f.file, rankChar f.rank, fileChar t.file, rankChar t.rank]⟩) ∧
    (∀ (f t : Square) (pr : PieceType) (cb : Bool),
      UCI.move (Move.mk f t MoveKind.enPassant pr) cb =
        ⟨[fileChar f.file, rankChar f.rank, fileChar t.file, rankChar t.rank]⟩) ∧
    (∀ (f t : Square) (pr : PieceType),
      UCI.move (Move.mk f t MoveKind.castling pr) true =
        ⟨[fileChar f.file, rankChar f.rank, fileChar t.file, rankChar t.rank]⟩) := by
  refine ⟨fun _ => rfl, fun _ => rfl, ?_, ?_, ?_, ?_, ?_⟩
  · intro f t pr
    simp only [UCI.move, and_self, if_true]
    rw [if_neg (show ¬ (MoveKind.castling = MoveKind.promotion) from by decide)]
    by_cases hgt : sqIdx t > sqIdx f
    · rw [if_pos hgt, if_pos hgt]
      rfl
    · rw [if_neg hgt, if_neg hgt]
      rfl
  · intro f t pr cb
    simp only [UCI.move, if_true]
    rw [if_neg (show ¬ (MoveKind.promotion = MoveKind.castling ∧ cb = false) from
          fun hcon => MoveKind.noConfusion hcon.1)]
    cases pr <;> rfl
  · intro f t pr cb
    simp only [UCI.move]
    rw [if_neg (show ¬ (MoveKind.normal = MoveKind.promotion) from by decide)]
    rw [if_neg (show ¬ (MoveKind.normal = MoveKind.castling ∧ cb = false) from
          fun hcon => MoveKind.noConfusion hcon.1)]
    rfl
  · intro f t pr cb
    simp only [UCI.move]
    rw [if_neg (show ¬ (MoveKind.enPassant = MoveKind.promotion) from by decide)]
    rw [if_neg (show ¬ (MoveKind.enPassant = MoveKind.castling ∧ cb = false) from
          fun hcon => MoveKind.noConfusion hcon.1)]
    rfl
  · intro f t pr
    simp only [UCI.move]
    rw [if_neg (show ¬ (MoveKind.castling = MoveKind.promotion) from by decide)]
    rw [if_neg (show ¬ (True ∧ (true = false)) from fun hcon => Bool.noConfusion hcon.2)]
    rfl

/-- Claim C6: the selector candidate policy — the candidate set is the capture
moves also present in the legal-move list; empty candidates with raw captures
yield the first raw capture (no legality check); empty candidates without
captures fall back to the full legal-move list; and whenever at least one
legal move exists the returned move is legal except in the raw-capture
fallback case, where it is drawn from the captures only. -/
theorem start_thinking_candidate_policy (rnd : Nat) (pos : Position) :
    rootCandidates pos = pos.captureMoves.filter (fun m => decide (m ∈ pos.legalMoves)) ∧
    (rootCandidates pos = [] → pos.captureMoves ≠ [] →
      ∃ c, pos.captureMoves.head? = some c ∧ start_thinking rnd pos = Except.ok c) ∧
    (rootCandidates pos = [] → pos.captureMoves = [] → pos.legalMoves ≠ [] →
      ∃ r, start_thinking rnd pos = Except.ok r ∧ r ∈ pos.legalMoves) ∧
    (pos.legalMoves ≠ [] →
      ∃ r, start_thinking rnd pos = Except.ok r ∧
        (if rootCandidates pos = [] ∧ pos.captureMoves ≠ []
         then r ∈ pos.captureMoves else r ∈ pos.legalMoves)) := by
  have hfall : ∀ (hc : rootCandidates pos = []) (hcap : pos.captureMoves ≠ []),
      ∃ c, pos.captureMoves.head? = some c ∧ start_thinking rnd pos = Except.ok c ∧
        c ∈ pos.captureMoves := by
    intro hc hcap
    rcases hl : pos.captureMoves with _ | ⟨c, cs⟩
    · exact absurd hl hcap
    · refine ⟨c, rfl, ?_, List.mem_cons_self c cs⟩
      simp only [start_thinking]
      rw [if_pos ⟨hc, hcap⟩, hl]
      rfl
  have hlegal : ∀ (hc : rootCandidates pos = []) (hcap : pos.captureMoves = [])
      (hleg : pos.legalMoves ≠ []),
      ∃ r, start_thinking rnd pos = Except.ok r ∧ r ∈ pos.legalMoves := by
    intro hc hcap hleg
    have hlt : rnd % pos.legalMoves.length < pos.legalMoves.length :=
      Nat.mod_lt _ (List.length_pos.mpr hleg)
    refine ⟨pos.legalMoves.getD (rnd % pos.legalMoves.length) Move.none, ?_, ?_⟩
    · simp only [start_thinking]
      rw [if_neg (show ¬ (rootCandidates pos = [] ∧ pos.captureMoves ≠ []) from
            fun hcon => hcon.2 hcap)]
      rw [if_pos hc]
      rw [if_neg hleg]
    · rw [List.getD_eq_getElem pos.legalMoves Move.none hlt]
      exact List.getElem_mem hlt
  have hcand : ∀ (hc : ¬ rootCandidates pos = []),
      ∃ r, start_thinking rnd pos = Except.ok r ∧ r ∈ pos.legalMoves := by
    intro hc
    have hlt : rnd % (rootCandidates pos).length < (rootCandidates pos).length :=
      Nat.mod_lt _ (List.length_pos.mpr hc)
    refine ⟨(rootCandidates pos).getD (rnd % (rootCandidates pos).length) Move.none, ?_, ?_⟩
    · simp only [start_thinking]
      rw [if_neg (show ¬ (rootCandidates pos = [] ∧ pos.captureMoves ≠ []) from
            fun hcon => hc hcon.1)]
      rw [if_neg hc, if_neg hc]
    · have hmem : (rootCandidates pos).getD (rnd % (rootCandidates pos).length) Move.none ∈
          rootCandidates pos := by
        rw [List.getD_eq_getElem (rootCandidates pos) Move.none hlt]
        exact List.getElem_mem hlt
      have := List.mem_filter.mp hmem
      exact of_decide_eq_true this.2
  refine ⟨rfl, ?_, ?_, ?_⟩
  · intro hc hcap
    obtain ⟨c, h1, h2, _⟩ := hfall hc hcap
    exact ⟨c, h1, h2⟩
  · exact hlegal
  · intro hleg
    by_cases hc : rootCandidates pos = []
    · by_cases hcap : pos.captureMoves = []
      · obtain ⟨r, h1, h2⟩ := hlegal hc hcap hleg
        refine ⟨r, h1, ?_⟩
        rw [if_neg (show ¬ (rootCandidates pos = [] ∧ pos.captureMoves ≠ []) from
              fun hcon => hcon.2 hcap)]
        exact h2
      · obtain ⟨c, _, h2, h3⟩ := hfall hc hcap
        refine ⟨c, h2, ?_⟩
        rw [if_pos ⟨hc, hcap⟩]
        exact h3
    · obtain ⟨r, h1, h2⟩ := hcand hc
      refine ⟨r, h1, ?_⟩
      rw [if_neg (show ¬ (rootCandidates pos = [] ∧ pos.captureMoves ≠ []) from
            fun hcon => hc hcon.1)]
      exact h2

theorem start_thinking_candidate_policy_wit :
    rootCandidates posFallback = [] ∧ posFallback.captureMoves ≠ [] ∧
    (∃ c, posFallback.captureMoves.head? = some c ∧
      start_thinking 0 posFallback = Except.ok c) :=
  ⟨by decide, by decide,
   (start_thinking_candidate_policy 0 posFallback).2.1 (by decide) (by decide)⟩

/-- Claim C8: decoding is case-insensitive in the 5th character — decoding a
5-character text gives the same move as decoding the text with its 5th
character lowercased (`lowerFifth`), so an uppercase promotion letter decodes
like the lowercase one. -/
theorem decode_promo_case_insensitive (pos : Position) (t : String) (h : t.length = 5) :
    (UCI.to_antichess_move pos t).2 = (UCI.to_antichess_move pos (lowerFifth t)).2 := by
  simp only [UCI.to_antichess_move, lowerFifth_idem]

theorem decode_promo_case_insensitive_wit :
    ("a7a8Q" : String).length = 5 ∧
    (UCI.to_antichess_move posTwo "a7a8Q").2 =
      (UCI.to_antichess_move posTwo (lowerFifth "a7a8Q")).2 :=
  ⟨by decide, decode_promo_case_insensitive posTwo "a7a8Q" (by decide)⟩

/-- Claim C9: the in-place mutation of the string argument — on a 5-character
input the returned (caller-visible) string has its 5th character replaced by
its lowercase form and every other character unchanged; inputs of any other
length come back unchanged. -/
theorem to_antichess_move_mutates_arg (pos : Position) (str : String) :
    (str.length = 5 →
      (UCI.to_antichess_move pos str).1.length = 5 ∧
      (UCI.to_antichess_move pos str).1.data.getD 4 ' ' = (str.data.getD 4 ' ').toLower ∧
      ∀ i : Nat, i ≠ 4 →
        (UCI.to_antichess_move pos str).1.data.getD i ' ' = str.data.getD i ' ') ∧
    (str.length ≠ 5 → (UCI.to_antichess_move pos str).1 = str) := by
  constructor
  · intro h5
    obtain ⟨a, b, c, d, e, hd⟩ := exists_five_chars str h5
    have hs : str = ⟨[a, b, c, d, e]⟩ := String.ext hd
    subst hs
    rw [to_antichess_move_fst]
    refine ⟨rfl, rfl, ?_⟩
    intro i hi
    show (String.mk [a, b, c, d, e.toLower]).data.getD i ' ' = _
    rcases i with _ | _ | _ | _ | _ | i
    · rfl
    · rfl
    · rfl
    · rfl
    · exact absurd rfl hi
    · rfl
  · intro h5
    rw [to_antichess_move_fst]
    unfold lowerFifth
    rw [if_neg h5]

theorem to_antichess_move_mutates_arg_wit :
    ("a7a8Q" : String).length = 5 ∧
    (UCI.to_antichess_move posMain "a7a8Q").1.length = 5 ∧
    (UCI.to_antichess_move posMain "a7a8Q").1.data.getD 4 ' ' =
      (("a7a8Q" : String).data.getD 4 ' ').toLower ∧
    (UCI.to_antichess_move posMain "a7a8Q").1.data.getD 0 ' ' =
      ("a7a8Q" : String).data.getD 0 ' ' :=
  ⟨by decide,
   ((to_antichess_move_mutates_arg posMain "a7a8Q").1 (by decide)).1,
   ((to_antichess_move_mutates_arg posMain "a7a8Q").1 (by decide)).2.1,
   ((to_antichess_move_mutates_arg posMain "a7a8Q").1 (by decide)).2.2 0 (by decide)⟩

/-- Claim C10: whenever `move_and_counter` completes, the state-history deque
holds exactly three snapshots, whatever its length before the call: the rebase
resets it to one element and each of the two move applications appends one. -/
theorem move_and_counter_three_snapshots (W : World) (rnd : Nat) (pos : Position) (m : Move)
    (states0 : Nat) (pr : Position × Nat)
    (h : (move_and_counter W rnd pos m states0).2 = Except.ok pr) : pr.2 = 3 := by
  revert h
  simp only [move_and_counter]
  cases start_thinking rnd (W.doMove (W.setFen (W.fen pos) W.optChess960) m) with
  | error e =>
    intro h
    exact Except.noConfusion h
  | ok best =>
    intro h
    injection h with h2
    rw [← h2]

theorem move_and_counter_three_snapshots_wit :
    (move_and_counter Wid 0 posMain mvE2E4 7).2 = Except.ok (posMain, 3) ∧
    ((posMain, 3) : Position × Nat).2 = 3 :=
  ⟨rfl, move_and_counter_three_snapshots Wid 0 posMain mvE2E4 7 (posMain, 3) rfl⟩
